import Mathlib

/-!
Verification of the analysis-request lifecycle and result contract of a
Reddit sentiment-analysis browser client.  The development embeds, in Lean:

* the JSON value model the client manipulates (`Json`), together with the
  text serializer used by `JSON.stringify` (compact form and the 2-space
  indented form) and a model of `JSON.parse`;
* the response schema (`AnalyzeResponse` and friends) from the API type
  declarations in `api.ts`;
* the request client `analyzeRedditUrl` and the page controller handlers
  (`handleSubmit`, `handleCopyToClipboard`, the raw-view toggle) of
  `Home.tsx` as state transformers over an explicit component state.
-/

namespace RedditSentiment

/-! ## Decimal numerals

Finite JavaScript numbers that appear in JSON texts are modelled by their
decimal numerals: a `JNum` denotes `mantissa / 10 ^ scale`. -/

structure JNum where
  mantissa : Int
  scale : Nat
deriving DecidableEq

/-- The rational value a decimal numeral denotes. -/
def JNum.toRat (x : JNum) : ℚ :=
  (x.mantissa : ℚ) / (10 : ℚ) ^ x.scale

/-- A whole decimal numeral. -/
def JNum.int (n : Int) : JNum := ⟨n, 0⟩

/-- The character for one decimal digit. -/
def digChar (d : Nat) : Char := Char.ofNat (48 + d)

/-- The digit value of a character, when it is a decimal digit. -/
def digVal (c : Char) : Option Nat :=
  if 48 ≤ c.toNat ∧ c.toNat ≤ 57 then some (c.toNat - 48) else none

/-- Big-endian digit list of a natural number (`[0]` for zero). -/
def bigDigits (n : Nat) : List Nat :=
  if n = 0 then [0] else (Nat.digits 10 n).reverse

/-- Value of a big-endian digit list. -/
def digitsToNat (ds : List Nat) : Nat :=
  ds.foldl (fun a d => a * 10 + d) 0

/-- Read the maximal prefix of decimal digits. -/
def readDigits : List Char → List Nat × List Char
  | [] => ([], [])
  | c :: cs =>
    match digVal c with
    | some d => let p := readDigits cs; (d :: p.1, p.2)
    | none => ([], c :: cs)

/-- True when the list does not continue a decimal numeral. -/
def numBoundary : List Char → Bool
  | [] => true
  | c :: _ => (digVal c).isNone && c ≠ '.'

/-- Digit text of an unsigned numeral of magnitude `m` and scale `sc`,
padded with leading zeros so at least one digit precedes the point. -/
def renderMag (m : Nat) (sc : Nat) : List Char :=
  let ds := List.replicate (sc + 1 - (bigDigits m).length) 0 ++ bigDigits m
  if sc = 0 then ds.map digChar
  else (ds.take (ds.length - sc)).map digChar ++
    '.' :: (ds.drop (ds.length - sc)).map digChar

/-- The decimal-numeral text of a `JNum`, as `JSON.stringify` writes a
finite number. -/
def renderJNum (x : JNum) : List Char :=
  (if x.mantissa < 0 then ['-'] else []) ++ renderMag x.mantissa.natAbs x.scale

/-- Parse an unsigned decimal numeral into magnitude, scale and remainder. -/
def parseNumMag (cs : List Char) : Option (Nat × Nat × List Char) :=
  match readDigits cs with
  | ([], _) => none
  | (d :: ds, r) =>
    match r with
    | [] => some (digitsToNat (d :: ds), 0, [])
    | c :: r2 =>
      if c = '.' then
        match readDigits r2 with
        | ([], _) => none
        | (f :: fs, r3) =>
          some (digitsToNat ((d :: ds) ++ f :: fs), (f :: fs).length, r3)
      else some (digitsToNat (d :: ds), 0, c :: r2)

/-- Parse a signed decimal numeral. -/
def parseNumber (cs : List Char) : Option (JNum × List Char) :=
  match cs with
  | [] => none
  | c :: cs1 =>
    if c = '-' then
      (parseNumMag cs1).map fun p => (⟨-(p.1 : Int), p.2.1⟩, p.2.2)
    else
      (parseNumMag (c :: cs1)).map fun p => (⟨(p.1 : Int), p.2.1⟩, p.2.2)

/-! ## Quoted strings

`JSON.stringify` escapes the quote, the backslash, the named control
characters and every other control character (the latter as `\u00xy` with
lower-case hex digits); `JSON.parse` undoes all single-character escapes,
`\/`, and `\uXXXX`. -/

/-- Lower-case hexadecimal digit character. -/
def hexChar (d : Nat) : Char :=
  if d < 10 then digChar d else Char.ofNat (87 + d)

/-- Hexadecimal digit value of a character, either case. -/
def hexVal (c : Char) : Option Nat :=
  if 48 ≤ c.toNat ∧ c.toNat ≤ 57 then some (c.toNat - 48)
  else if 97 ≤ c.toNat ∧ c.toNat ≤ 102 then some (c.toNat - 87)
  else if 65 ≤ c.toNat ∧ c.toNat ≤ 70 then some (c.toNat - 55)
  else none

/-- Escape one character of a quoted string. -/
def escChar (c : Char) : List Char :=
  if c = '"' then ['\\', '"']
  else if c = '\\' then ['\\', '\\']
  else if c = '\x08' then ['\\', 'b']
  else if c = '\x09' then ['\\', 't']
  else if c = '\x0a' then ['\\', 'n']
  else if c = '\x0c' then ['\\', 'f']
  else if c = '\x0d' then ['\\', 'r']
  else if c.toNat < 32 then
    ['\\', 'u', '0', '0', hexChar (c.toNat / 16), hexChar (c.toNat % 16)]
  else [c]

/-- Escape every character of a string body. -/
def escStr : List Char → List Char
  | [] => []
  | c :: cs => escChar c ++ escStr cs

/-- Resolve a single-character escape. -/
def unescChar (c : Char) : Option Char :=
  if c = '"' then some '"'
  else if c = '\\' then some '\\'
  else if c = '/' then some '/'
  else if c = 'b' then some '\x08'
  else if c = 'f' then some '\x0c'
  else if c = 'n' then some '\x0a'
  else if c = 'r' then some '\x0d'
  else if c = 't' then some '\x09'
  else none

/-- Parse a quoted string body after the opening quote, consuming the
closing quote. -/
def parseStrBody : List Char → Option (List Char × List Char)
  | [] => none
  | c :: cs =>
    if c = '"' then some ([], cs)
    else if c = '\\' then
      match cs with
      | [] => none
      | e :: cs2 =>
        if e = 'u' then
          match cs2 with
          | a :: b :: c3 :: d :: cs3 =>
            match hexVal a, hexVal b, hexVal c3, hexVal d with
            | some ha, some hb, some hc, some hd =>
              match parseStrBody cs3 with
              | some (s, r) =>
                some (Char.ofNat (((ha * 16 + hb) * 16 + hc) * 16 + hd) :: s, r)
              | none => none
            | _, _, _, _ => none
          | _ => none
        else
          match unescChar e with
          | some ec =>
            match parseStrBody cs2 with
            | some (s, r) => some (ec :: s, r)
            | none => none
          | none => none
    else
      match parseStrBody cs with
      | some (s, r) => some (c :: s, r)
      | none => none

/-! ## JSON values

The JSON data the client passes around: request and response bodies, and
the stored analysis result.  String bodies and object keys are lists of
characters.  `JsonList` and `JsonFields` unfold the nested lists so the
mutual recursion stays structural. -/

mutual
inductive Json where
  | null
  | bool (b : Bool)
  | num (x : JNum)
  | str (s : List Char)
  | arr (xs : JsonList)
  | obj (fs : JsonFields)
deriving DecidableEq
inductive JsonList where
  | nil
  | cons (hd : Json) (tl : JsonList)
deriving DecidableEq
inductive JsonFields where
  | nil
  | cons (key : List Char) (val : Json) (tl : JsonFields)
deriving DecidableEq
end

/-- JSON string value of a Lean string. -/
def Json.ofString (s : String) : Json := .str s.toList

/-- JavaScript truthiness of a JSON value (`NaN` is not representable). -/
def Json.isTruthy : Json → Bool
  | .null => false
  | .bool b => b
  | .num x => x.mantissa ≠ 0
  | .str s => s ≠ []
  | .arr _ => true
  | .obj _ => true

/-- Look up a key, keeping the last occurrence as `JSON.parse` does for
duplicate keys in an object literal. -/
def JsonFields.lookup (fs : JsonFields) (k : List Char) : Option Json :=
  match fs with
  | .nil => none
  | .cons k2 v tl =>
    match tl.lookup k with
    | some r => some r
    | none => if k2 = k then some v else none

/-- Two-space indentation at nesting depth `d`. -/
def indentChars (d : Nat) : List Char := List.replicate (2 * d) ' '

mutual
/-- Text of a JSON value at nesting depth `d` in the 2-space indented
format of `JSON.stringify(v, null, 2)`. -/
def renderVal (j : Json) (d : Nat) : List Char :=
  match j with
  | .null => "null".toList
  | .bool true => "true".toList
  | .bool false => "false".toList
  | .num x => renderJNum x
  | .str s => '"' :: (escStr s ++ ['"'])
  | .arr .nil => ['[', ']']
  | .arr (.cons x tl) =>
    '[' :: '\n' :: (renderItems (JsonList.cons x tl) (d + 1) ++
      '\n' :: (indentChars d ++ [']']))
  | .obj .nil => ['\x7b', '\x7d']
  | .obj (.cons k v tl) =>
    '\x7b' :: '\n' :: (renderFields (JsonFields.cons k v tl) (d + 1) ++
      '\n' :: (indentChars d ++ ['\x7d']))

/-- Indented text of nonempty array items at depth `d`. -/
def renderItems (xs : JsonList) (d : Nat) : List Char :=
  match xs with
  | .nil => []
  | .cons x .nil => indentChars d ++ renderVal x d
  | .cons x (.cons y tl) =>
    indentChars d ++ renderVal x d ++
      ',' :: '\n' :: renderItems (JsonList.cons y tl) d

/-- Indented text of nonempty object members at depth `d`. -/
def renderFields (fs : JsonFields) (d : Nat) : List Char :=
  match fs with
  | .nil => []
  | .cons k v .nil =>
    indentChars d ++ '"' :: (escStr k ++ '"' :: ':' :: ' ' :: renderVal v d)
  | .cons k v (.cons k2 v2 tl) =>
    indentChars d ++ '"' :: (escStr k ++ '"' :: ':' :: ' ' :: renderVal v d) ++
      ',' :: '\n' :: renderFields (JsonFields.cons k2 v2 tl) d
end

mutual
/-- Compact text of a JSON value, the format of `JSON.stringify(v)`. -/
def renderValC (j : Json) : List Char :=
  match j with
  | .null => "null".toList
  | .bool true => "true".toList
  | .bool false => "false".toList
  | .num x => renderJNum x
  | .str s => '"' :: (escStr s ++ ['"'])
  | .arr .nil => ['[', ']']
  | .arr (.cons x tl) => '[' :: (renderValC x ++ renderItemsC tl ++ [']'])
  | .obj .nil => ['\x7b', '\x7d']
  | .obj (.cons k v tl) =>
    '\x7b' :: ('"' :: (escStr k ++ '"' :: ':' :: renderValC v) ++
      renderFieldsC tl ++ ['\x7d'])

/-- Compact text of the remaining array items, each preceded by a comma. -/
def renderItemsC (xs : JsonList) : List Char :=
  match xs with
  | .nil => []
  | .cons x tl => ',' :: renderValC x ++ renderItemsC tl

/-- Compact text of the remaining object members, each preceded by a comma. -/
def renderFieldsC (fs : JsonFields) : List Char :=
  match fs with
  | .nil => []
  | .cons k v tl =>
    ',' :: '"' :: (escStr k ++ '"' :: ':' :: renderValC v) ++ renderFieldsC tl
end

/-- Whether a character is JSON whitespace. -/
def isWsChar (c : Char) : Prop := c = ' ' ∨ c = '\n' ∨ c = '\t' ∨ c = '\r'

instance (c : Char) : Decidable (isWsChar c) := by
  unfold isWsChar; infer_instance

/-- Skip JSON whitespace. -/
def skipWs : List Char → List Char
  | [] => []
  | c :: cs => if isWsChar c then skipWs cs else c :: cs

/-- Check a fixed keyword tail. -/
def expectKw : List Char → List Char → Option (List Char)
  | [], cs => some cs
  | _ :: _, [] => none
  | k :: ks, c :: cs => if c = k then expectKw ks cs else none

mutual
/-- Parse one JSON value, fuel-bounded; whitespace-lenient where
`JSON.parse` is. -/
def parseVal : Nat → List Char → Option (Json × List Char)
  | 0, _ => none
  | fuel + 1, cs =>
    match skipWs cs with
    | [] => none
    | c :: cs1 =>
      if c = 'n' then (expectKw ['u', 'l', 'l'] cs1).map fun r => (Json.null, r)
      else if c = 't' then
        (expectKw ['r', 'u', 'e'] cs1).map fun r => (Json.bool true, r)
      else if c = 'f' then
        (expectKw ['a', 'l', 's', 'e'] cs1).map fun r => (Json.bool false, r)
      else if c = '"' then (parseStrBody cs1).map fun p => (Json.str p.1, p.2)
      else if c = '[' then
        match skipWs cs1 with
        | [] => none
        | c2 :: cs2 =>
          if c2 = ']' then some (Json.arr JsonList.nil, cs2)
          else
            match parseItems fuel (c2 :: cs2) with
            | some (xs, r) => some (Json.arr xs, r)
            | none => none
      else if c = '\x7b' then
        match skipWs cs1 with
        | [] => none
        | c2 :: cs2 =>
          if c2 = '\x7d' then some (Json.obj JsonFields.nil, cs2)
          else
            match parseFields fuel (c2 :: cs2) with
            | some (fs, r) => some (Json.obj fs, r)
            | none => none
      else (parseNumber (c :: cs1)).map fun p => (Json.num p.1, p.2)

/-- Parse the items of a nonempty array, consuming the closing bracket. -/
def parseItems : Nat → List Char → Option (JsonList × List Char)
  | 0, _ => none
  | fuel + 1, cs =>
    match parseVal fuel cs with
    | none => none
    | some (x, r) =>
      match skipWs r with
      | [] => none
      | c2 :: r2 =>
        if c2 = ']' then some (JsonList.cons x JsonList.nil, r2)
        else if c2 = ',' then
          match parseItems fuel r2 with
          | none => none
          | some (xs, r3) => some (JsonList.cons x xs, r3)
        else none

/-- Parse the members of a nonempty object, consuming the closing brace. -/
def parseFields : Nat → List Char → Option (JsonFields × List Char)
  | 0, _ => none
  | fuel + 1, cs =>
    match skipWs cs with
    | [] => none
    | c0 :: cs0 =>
      if c0 = '"' then
        match parseStrBody cs0 with
        | none => none
        | some (k, r) =>
          match skipWs r with
          | [] => none
          | c1 :: r1 =>
            if c1 = ':' then
              match parseVal fuel r1 with
              | none => none
              | some (v, r2) =>
                match skipWs r2 with
                | [] => none
                | c2 :: r3 =>
                  if c2 = '\x7d' then
                    some (JsonFields.cons k v JsonFields.nil, r3)
                  else if c2 = ',' then
                    match parseFields fuel r3 with
                    | none => none
                    | some (fs, r4) => some (JsonFields.cons k v fs, r4)
                  else none
            else none
      else none
end

mutual
/-- Fuel sufficient for `parseVal` on the rendering of a value. -/
def fuelJ : Json → Nat
  | .arr xs => 1 + fuelL xs
  | .obj fs => 1 + fuelF fs
  | _ => 1

/-- Fuel sufficient for `parseItems` on the rendering of array items. -/
def fuelL : JsonList → Nat
  | .nil => 0
  | .cons x tl => 1 + fuelJ x + fuelL tl

/-- Fuel sufficient for `parseFields` on the rendering of object members. -/
def fuelF : JsonFields → Nat
  | .nil => 0
  | .cons _ v tl => 1 + fuelJ v + fuelF tl
end

/-- The text `JSON.stringify(v, null, 2)` produces. -/
def jstringify2 (j : Json) : String := String.mk (renderVal j 0)

/-- The text `JSON.stringify(v)` produces. -/
def jstringifyC (j : Json) : String := String.mk (renderValC j)

/-- Model of `JSON.parse`: one value, trailing whitespace allowed; `none`
when the text is not valid JSON. -/
def jparse (s : String) : Option Json :=
  match parseVal (s.length + 1) s.toList with
  | some (j, r) => if skipWs r = [] then some j else none
  | none => none

/-! ## Response schema (`api.ts` type declarations) -/

/-- The sentiment enum literal values of the wire contract. -/
inductive Sentiment where
  | positive
  | negative
  | neutral
deriving DecidableEq

/-- The enum literal text of a sentiment. -/
def Sentiment.text : Sentiment → String
  | .positive => "positive"
  | .negative => "negative"
  | .neutral => "neutral"

/-- `SentimentGroup` of api.ts. -/
structure SentimentGroup where
  label : Sentiment
  count : JNum
  proportion : JNum
deriving DecidableEq

/-- `NotableComment` of api.ts. -/
structure NotableComment where
  comment_id : String
  snippet : String
  sentiment : Sentiment
  score : JNum
deriving DecidableEq

/-- `AnalyzeResponse` of api.ts: the response schema. -/
structure AnalyzeResponse where
  post_title : String
  overall_sentiment : Sentiment
  groups : List SentimentGroup
  controversy : JNum
  keywords : List String
  notable_comments : List NotableComment
deriving DecidableEq

/-- Embed a Lean list of JSON values. -/
def JsonList.ofList : List Json → JsonList
  | [] => .nil
  | j :: js => .cons j (ofList js)

/-- The Lean list of a `JsonList`. -/
def JsonList.toList : JsonList → List Json
  | .nil => []
  | .cons x tl => x :: tl.toList

/-- JSON value of a sentiment label. -/
def Sentiment.toJson (s : Sentiment) : Json := .str s.text.toList

/-- JSON object of a `SentimentGroup`, fields in declaration order. -/
def SentimentGroup.toJson (g : SentimentGroup) : Json :=
  .obj (.cons "label".toList g.label.toJson
    (.cons "count".toList (.num g.count)
    (.cons "proportion".toList (.num g.proportion) .nil)))

/-- JSON object of a `NotableComment`, fields in declaration order. -/
def NotableComment.toJson (c : NotableComment) : Json :=
  .obj (.cons "comment_id".toList (.str c.comment_id.toList)
    (.cons "snippet".toList (.str c.snippet.toList)
    (.cons "sentiment".toList c.sentiment.toJson
    (.cons "score".toList (.num c.score) .nil))))

/-- JSON object of an `AnalyzeResponse`, fields in declaration order. -/
def AnalyzeResponse.toJson (r : AnalyzeResponse) : Json :=
  .obj (.cons "post_title".toList (.str r.post_title.toList)
    (.cons "overall_sentiment".toList r.overall_sentiment.toJson
    (.cons "groups".toList
      (.arr (JsonList.ofList (r.groups.map SentimentGroup.toJson)))
    (.cons "controversy".toList (.num r.controversy)
    (.cons "keywords".toList
      (.arr (JsonList.ofList (r.keywords.map Json.ofString)))
    (.cons "notable_comments".toList
      (.arr (JsonList.ofList (r.notable_comments.map NotableComment.toJson)))
      .nil))))))

/-- Read a sentiment enum literal. -/
def Sentiment.fromJson : Json → Option Sentiment
  | .str s =>
    if s = "positive".toList then some .positive
    else if s = "negative".toList then some .negative
    else if s = "neutral".toList then some .neutral
    else none
  | _ => none

/-- Read a JSON string. -/
def Json.asString : Json → Option String
  | .str s => some (String.mk s)
  | _ => none

/-- Read a JSON number. -/
def Json.asNum : Json → Option JNum
  | .num x => some x
  | _ => none

/-- Decode every element of a list. -/
def decodeList {α : Type} (f : Json → Option α) : List Json → Option (List α)
  | [] => some []
  | j :: js =>
    match f j, decodeList f js with
    | some a, some as => some (a :: as)
    | _, _ => none

/-- Decode a `SentimentGroup` from a JSON object; extra fields are
tolerated and ignored. -/
def SentimentGroup.fromJson (j : Json) : Option SentimentGroup :=
  match j with
  | .obj fs =>
    match fs.lookup "label".toList, fs.lookup "count".toList,
        fs.lookup "proportion".toList with
    | some lj, some cj, some pj =>
      match Sentiment.fromJson lj, cj.asNum, pj.asNum with
      | some l, some c, some p => some ⟨l, c, p⟩
      | _, _, _ => none
    | _, _, _ => none
  | _ => none

/-- Decode a `NotableComment` from a JSON object. -/
def NotableComment.fromJson (j : Json) : Option NotableComment :=
  match j with
  | .obj fs =>
    match fs.lookup "comment_id".toList, fs.lookup "snippet".toList,
        fs.lookup "sentiment".toList, fs.lookup "score".toList with
    | some ij, some nj, some sj, some oj =>
      match ij.asString, nj.asString, Sentiment.fromJson sj, oj.asNum with
      | some i, some n, some st, some o => some ⟨i, n, st, o⟩
      | _, _, _, _ => none
    | _, _, _, _ => none
  | _ => none

/-- Decode an `AnalyzeResponse` from a JSON object: the schema of §3 of
the contract; unknown extra fields are tolerated and ignored. -/
def AnalyzeResponse.fromJson (j : Json) : Option AnalyzeResponse :=
  match j with
  | .obj fs =>
    match fs.lookup "post_title".toList, fs.lookup "overall_sentiment".toList,
        fs.lookup "groups".toList, fs.lookup "controversy".toList,
        fs.lookup "keywords".toList, fs.lookup "notable_comments".toList with
    | some tj, some sj, some gj, some cj, some kj, some nj =>
      match tj.asString, Sentiment.fromJson sj, gj, cj.asNum, kj, nj with
      | some t, some s, .arr gs, some c, .arr ks, .arr ns =>
        match decodeList SentimentGroup.fromJson gs.toList,
            decodeList Json.asString ks.toList,
            decodeList NotableComment.fromJson ns.toList with
        | some g, some k, some n => some ⟨t, s, g, c, k, n⟩
        | _, _, _ => none
      | _, _, _, _, _, _ => none
    | _, _, _, _, _, _ => none
  | _ => none

/-! ## Request client (`api.ts`) -/

/-- The fixed backend address baked into the client. -/
def API_BASE_URL : String := "https://cs410-group-project.onrender.com"

/-- One outbound HTTP request as `fetch` is invoked by `analyzeRedditUrl`. -/
structure Request where
  endpoint : String
  method : String
  contentType : String
  body : String
deriving DecidableEq

/-- A transport-level response: its status code, and the JSON value of its
body text, or `none` when the body is not valid JSON (`response.json()`
rejects). -/
structure HttpResponse where
  status : Nat
  body : Option Json

/-- `response.ok`: status in the 200 to 299 range. -/
def HttpResponse.ok (r : HttpResponse) : Bool :=
  200 ≤ r.status && r.status ≤ 299

/-- Outcome of `fetch`: the promise rejects (no response at all), or a
response arrives. -/
inductive FetchOutcome where
  | netError (msg : String)
  | response (r : HttpResponse)

/-- A JavaScript thrown value: an `Error` carrying a message, or any
non-`Error` value. -/
inductive Thrown where
  | error (msg : String)
  | other (v : Json)
deriving DecidableEq

mutual
/-- JavaScript string coercion `String(v)` of a JSON value, as the `Error`
constructor applies to a non-string argument. -/
def jsToString : Json → String
  | .null => "null"
  | .bool true => "true"
  | .bool false => "false"
  | .num x => String.mk (renderJNum x)
  | .str s => String.mk s
  | .arr xs => jsArrText xs
  | .obj _ => "[object Object]"

/-- Array-to-string: element texts joined by commas. -/
def jsArrText : JsonList → String
  | .nil => ""
  | .cons x .nil => jsElemText x
  | .cons x (.cons y tl) => jsElemText x ++ "," ++ jsArrText (.cons y tl)

/-- Element text inside an array: `null` renders empty, other values as
`jsToString`. -/
def jsElemText : Json → String
  | .null => ""
  | .bool true => "true"
  | .bool false => "false"
  | .num x => String.mk (renderJNum x)
  | .str s => String.mk s
  | .arr xs => jsArrText xs
  | .obj _ => "[object Object]"
end

/-- The single request `analyzeRedditUrl` issues for a url: a POST of the
compact JSON text of the object `\x7b"url": url\x7d` to the fixed
endpoint. -/
def analyzeRequest (url : String) : Request :=
  { endpoint := API_BASE_URL ++ "/api/analyze"
    method := "POST"
    contentType := "application/json"
    body := jstringifyC (.obj (.cons "url".toList (Json.ofString url) .nil)) }

/-- The generic failure message carrying the numeric status code. -/
def statusMessage (status : Nat) : String :=
  "API request failed with status " ++ toString status

/-- The message `analyzeRedditUrl` builds for a non-success response: the
`detail` field of the JSON body when present and truthy (string-coerced),
otherwise the generic status message; a missing or malformed body also
falls back to the generic message. -/
def errorMessageFor (status : Nat) (body : Option Json) : String :=
  match body with
  | none => statusMessage status
  | some j =>
    match j with
    | .obj fs =>
      match fs.lookup "detail".toList with
      | some d => if d.isTruthy then jsToString d else statusMessage status
      | none => statusMessage status
    | _ => statusMessage status

/-- The engine-supplied `SyntaxError` message when a success body fails to
parse as JSON; its exact text is engine-dependent. -/
def syntaxErrorMessage : String := "Unexpected end of JSON input"

/-- The request client `analyzeRedditUrl` of api.ts, given the outcome the
transport produces: the list of requests issued and the settled promise,
`.ok` with the parsed body or `.error` with the thrown value. -/
def analyzeRedditUrl (url : String) (outcome : FetchOutcome) :
    List Request × Except Thrown Json :=
  ([analyzeRequest url],
    match outcome with
    | .netError m => .error (.error m)
    | .response r =>
      if r.ok then
        match r.body with
        | some j => .ok j
        | none => .error (.error syntaxErrorMessage)
      else .error (.error (errorMessageFor r.status r.body)))

/-! ## Result controller (`Home.tsx`) -/

/-- JavaScript `String.prototype.trim`: strip whitespace from both ends. -/
def jsTrim (s : String) : String :=
  String.mk
    (((s.toList.dropWhile Char.isWhitespace).reverse.dropWhile
      Char.isWhitespace).reverse)

/-- The component state held in the `useState` hooks of `Home`; `result`
holds the JSON value last stored by `setResult`, `Json.null` standing for
the JavaScript `null`. -/
structure HomeState where
  url : String
  loading : Bool
  result : Json
  error : Option String
  showRawJson : Bool
  copySuccess : Bool
deriving DecidableEq

/-- The initial hook values. -/
def initialState : HomeState :=
  { url := "", loading := false, result := Json.null, error := none,
    showRawJson := false, copySuccess := false }

/-- The pre-dispatch updates of `handleSubmit` for a non-blank url:
`setLoading(true); setError(null); setResult(null); setShowRawJson(false)`. -/
def preDispatch (s : HomeState) : HomeState :=
  { s with
      loading := true
      error := none
      result := Json.null
      showRawJson := false }

/-- The `try/catch/finally` completion of `handleSubmit` on the settled
result of `analyzeRedditUrl`: store the data, or store the message of an
`Error` (a fixed text for a non-`Error` value); always clear `loading`. -/
def settleSubmit (s : HomeState) (res : Except Thrown Json) : HomeState :=
  let s2 := match res with
    | .ok data => { s with result := data }
    | .error e => { s with error := some (match e with
        | .error m => m
        | .other _ => "An error occurred") }
  { s2 with loading := false }

/-- `handleSubmit` of Home.tsx: blank input short-circuits with a
validation message; otherwise dispatch through the request client and
settle.  Returns the requests issued and the final state. -/
def handleSubmit (s : HomeState) (outcome : FetchOutcome) :
    List Request × HomeState :=
  if jsTrim s.url = "" then
    ([], { s with error := some "Please enter a Reddit URL" })
  else
    let p := analyzeRedditUrl s.url outcome
    (p.1, settleSubmit (preDispatch s) p.2)

/-- Observable effects of one `handleCopyToClipboard()` call. -/
structure CopyEffects where
  written : Option String
  loggedFailure : Bool
  timerDelayMs : Option Nat
deriving DecidableEq

/-- `handleCopyToClipboard` of Home.tsx, given whether the clipboard write
resolves: no-op on a falsy result; on success set the flag and schedule the
2000 ms reset; on rejection only log. -/
def handleCopyToClipboard (s : HomeState) (writeOk : Bool) :
    HomeState × CopyEffects :=
  if s.result.isTruthy = false then
    (s, { written := none, loggedFailure := false, timerDelayMs := none })
  else if writeOk then
    ({ s with copySuccess := true },
      { written := some (jstringify2 s.result)
        loggedFailure := false
        timerDelayMs := some 2000 })
  else
    (s, { written := some (jstringify2 s.result)
          loggedFailure := true
          timerDelayMs := none })

/-- The deferred `setTimeout` callback that clears the copy flag. -/
def copyTimerFire (s : HomeState) : HomeState := { s with copySuccess := false }

/-- The raw-JSON toggle button handler: `setShowRawJson(!showRawJson)`. -/
def toggleRawView (s : HomeState) : HomeState :=
  { s with showRawJson := ! s.showRawJson }

/-! ## Concrete scenario data -/

/-- The example url of the success scenario. -/
def exampleUrl : String := "https://reddit.com/r/test/comments/abc123/title"

/-- The mocked success-scenario response object. -/
def sampleResponse : AnalyzeResponse :=
  { post_title := "Test Post"
    overall_sentiment := .positive
    groups := [⟨.positive, ⟨8, 0⟩, ⟨8, 1⟩⟩, ⟨.negative, ⟨2, 0⟩, ⟨2, 1⟩⟩]
    controversy := ⟨35, 2⟩
    keywords := ["great", "useful"]
    notable_comments := [⟨"c1", "Loved it", .positive, ⟨42, 0⟩⟩] }

/-- A success body missing the required `overall_sentiment` field. -/
def malformedBody : Json :=
  .obj (.cons "post_title".toList (.str "Test Post".toList) .nil)

/-- The mocked 422 failure body. -/
def detailBody : Json :=
  .obj (.cons "detail".toList (.str "Invalid Reddit URL".toList) .nil)

/-- A schema-conforming response whose proportions sum to one half. -/
def badProportionsResponse : AnalyzeResponse :=
  { post_title := "Bad"
    overall_sentiment := .neutral
    groups := [⟨.positive, ⟨10, 0⟩, ⟨5, 1⟩⟩]
    controversy := ⟨0, 0⟩
    keywords := []
    notable_comments := [] }

/-- Sum of the `proportion` fields over the groups of a response. -/
def sumProportions (r : AnalyzeResponse) : ℚ :=
  (r.groups.map fun g => g.proportion.toRat).sum

/-- Sum of the `count` fields over the groups of a response. -/
def sumCounts (r : AnalyzeResponse) : ℚ :=
  (r.groups.map fun g => g.count.toRat).sum

theorem digVal_digChar {d : Nat} (h : d < 10) : digVal (digChar d) = some d := by
  interval_cases d <;> decide

theorem digVal_eq_none {c : Char} (h48 : ¬ (48 ≤ c.toNat ∧ c.toNat ≤ 57)) :
    digVal c = none := by
  simp [digVal, h48]

theorem readDigits_append {D : List Nat} {rest : List Char}
    (hD : ∀ d ∈ D, d < 10) (hrest : (readDigits rest).1 = []) :
    readDigits (D.map digChar ++ rest) = (D, (readDigits rest).2) := by
  induction D with
  | nil =>
    cases hr : rest with
    | nil => simp [readDigits]
    | cons c cs =>
      subst hr
      simp only [List.map_nil, List.nil_append]
      simp only [readDigits] at hrest ⊢
      cases hv : digVal c with
      | some d => simp [hv] at hrest
      | none => simp [hv]
  | cons d D ih =>
    have hd : d < 10 := hD d (by simp)
    have hD' : ∀ x ∈ D, x < 10 := fun x hx => hD x (by simp [hx])
    simp only [List.map_cons, List.cons_append, readDigits, digVal_digChar hd,
      List.append_eq, ih hD']

theorem readDigits_nil_of_boundary {rest : List Char} (h : numBoundary rest = true) :
    (readDigits rest).1 = [] := by
  cases rest with
  | nil => simp [readDigits]
  | cons c cs =>
    simp only [numBoundary, Bool.and_eq_true, Option.isNone_iff_eq_none,
      decide_eq_true_eq] at h
    simp [readDigits, h.1]

theorem digitsToNat_cons (d : Nat) (ds : List Nat) :
    digitsToNat (d :: ds) = ds.foldl (fun a x => a * 10 + x) d := by
  simp [digitsToNat]

theorem digitsToNat_replicate_zero_append (k : Nat) (ds : List Nat) :
    digitsToNat (List.replicate k 0 ++ ds) = digitsToNat ds := by
  induction k with
  | zero => simp
  | succ n ih =>
    simpa [List.replicate_succ, digitsToNat] using ih

theorem digitsToNat_reverse_digits (n : Nat) :
    digitsToNat ((Nat.digits 10 n).reverse) = n := by
  have hfold : ∀ L : List Nat,
      List.foldr (fun d a => a * 10 + d) 0 L = Nat.ofDigits 10 L := by
    intro L
    induction L with
    | nil => simp [Nat.ofDigits]
    | cons d L ih => simp [Nat.ofDigits_cons, ih]; ring
  have := List.foldl_reverse (l := Nat.digits 10 n)
    (f := fun a d => a * 10 + d) (b := 0)
  calc digitsToNat ((Nat.digits 10 n).reverse)
      = List.foldr (fun d a => a * 10 + d) 0 (Nat.digits 10 n) := this
    _ = Nat.ofDigits 10 (Nat.digits 10 n) := hfold _
    _ = n := by exact_mod_cast Nat.ofDigits_digits 10 n

theorem digitsToNat_bigDigits (n : Nat) : digitsToNat (bigDigits n) = n := by
  by_cases h : n = 0
  · simp [bigDigits, h, digitsToNat]
  · simp [bigDigits, h, digitsToNat_reverse_digits]

theorem bigDigits_lt_ten {n : Nat} : ∀ d ∈ bigDigits n, d < 10 := by
  intro d hd
  by_cases h : n = 0
  · simp [bigDigits, h] at hd; omega
  · simp only [bigDigits, h, if_false, List.mem_reverse] at hd
    exact Nat.digits_lt_base (by norm_num) hd

theorem bigDigits_ne_nil (n : Nat) : bigDigits n ≠ [] := by
  by_cases h : n = 0
  · simp [bigDigits, h]
  · simp [bigDigits, h, Nat.digits_ne_nil_iff_ne_zero]

theorem readDigits_boundary {rest : List Char} (h : numBoundary rest = true) :
    readDigits rest = ([], rest) := by
  cases rest with
  | nil => simp [readDigits]
  | cons c cs =>
    simp only [numBoundary, Bool.and_eq_true, Option.isNone_iff_eq_none,
      decide_eq_true_eq] at h
    simp [readDigits, h.1]

theorem digVal_dot : digVal '.' = none := by decide

theorem parseNumMag_render (m sc : Nat) {rest : List Char}
    (hb : numBoundary rest = true) :
    parseNumMag (renderMag m sc ++ rest) = some (m, sc, rest) := by
  set P : List Nat := List.replicate (sc + 1 - (bigDigits m).length) 0 ++ bigDigits m
    with hPdef
  have hPlt : ∀ d ∈ P, d < 10 := by
    intro d hd
    rcases List.mem_append.1 hd with h | h
    · have := List.eq_of_mem_replicate h; omega
    · exact bigDigits_lt_ten d h
  have hPval : digitsToNat P = m := by
    rw [hPdef, digitsToNat_replicate_zero_append, digitsToNat_bigDigits]
  have hPlen : sc + 1 ≤ P.length := by
    have hne := bigDigits_ne_nil m
    have : 1 ≤ (bigDigits m).length := by
      cases h : bigDigits m with
      | nil => exact absurd h hne
      | cons a l => simp
    simp only [hPdef, List.length_append, List.length_replicate]
    omega
  by_cases hsc : sc = 0
  · subst hsc
    have hrd : readDigits (P.map digChar ++ rest) = (P, rest) := by
      rw [readDigits_append hPlt (by rw [readDigits_boundary hb])]
      rw [readDigits_boundary hb]
    cases hP : P with
    | nil => rw [hP] at hPlen; simp at hPlen
    | cons p ps =>
      rw [hP] at hrd hPval
      simp only [renderMag, hPdef.symm, if_true]
      rw [hP]
      cases hr : rest with
      | nil =>
        rw [hr] at hrd
        simp only [parseNumMag]
        rw [hrd]
        simp [hPval]
      | cons c r2 =>
        rw [hr] at hrd hb
        simp only [numBoundary, Bool.and_eq_true, decide_eq_true_eq] at hb
        simp only [parseNumMag]
        rw [hrd]
        simp [hb.2, hPval]
  · have hk : P.length - sc + sc = P.length := by omega
    have htd := List.take_append_drop (P.length - sc) P
    have hdlen : (P.drop (P.length - sc)).length = sc := by
      simp [List.length_drop]; omega
    have htlen : 1 ≤ (P.take (P.length - sc)).length := by
      simp [List.length_take]; omega
    have htake_lt : ∀ d ∈ P.take (P.length - sc), d < 10 :=
      fun d hd => hPlt d (List.mem_of_mem_take hd)
    have hdrop_lt : ∀ d ∈ P.drop (P.length - sc), d < 10 :=
      fun d hd => hPlt d (List.mem_of_mem_drop hd)
    have hrd2 : readDigits ((P.drop (P.length - sc)).map digChar ++ rest)
        = (P.drop (P.length - sc), rest) := by
      rw [readDigits_append hdrop_lt (by rw [readDigits_boundary hb])]
      rw [readDigits_boundary hb]
    have hrd1 : readDigits ((P.take (P.length - sc)).map digChar ++
        ('.' :: ((P.drop (P.length - sc)).map digChar ++ rest)))
        = (P.take (P.length - sc), '.' :: ((P.drop (P.length - sc)).map digChar ++ rest)) := by
      rw [readDigits_append htake_lt (by simp [readDigits, digVal_dot])]
      simp [readDigits, digVal_dot]
    cases hT : P.take (P.length - sc) with
    | nil => rw [hT] at htlen; simp at htlen
    | cons t ts =>
      cases hD : P.drop (P.length - sc) with
      | nil => rw [hD] at hdlen; simp at hdlen; omega
      | cons q qs =>
        rw [hT, hD] at hrd1
        rw [hD] at hrd2 hdlen
        rw [hT, hD] at htd
        simp only [renderMag, hPdef.symm, hsc, if_false, List.append_assoc,
          List.cons_append]
        rw [hT, hD]
        simp only [parseNumMag]
        rw [hrd1]
        simp only [reduceIte]
        rw [hrd2]
        have hval : digitsToNat ((t :: ts) ++ q :: qs) = m := by
          rw [htd]; exact hPval
        have hval' : digitsToNat (t :: (ts ++ q :: qs)) = m := by
          simpa using hval
        simp [hval', hdlen]

theorem renderMag_head (m sc : Nat) :
    ∃ p t, p < 10 ∧ renderMag m sc = digChar p :: t := by
  set P : List Nat := List.replicate (sc + 1 - (bigDigits m).length) 0 ++ bigDigits m
    with hPdef
  have hPlt : ∀ d ∈ P, d < 10 := by
    intro d hd
    rcases List.mem_append.1 hd with h | h
    · have := List.eq_of_mem_replicate h; omega
    · exact bigDigits_lt_ten d h
  have hPlen : sc + 1 ≤ P.length := by
    have hne := bigDigits_ne_nil m
    have : 1 ≤ (bigDigits m).length := by
      cases h : bigDigits m with
      | nil => exact absurd h hne
      | cons a l => simp
    simp only [hPdef, List.length_append, List.length_replicate]
    omega
  by_cases hsc : sc = 0
  · subst hsc
    cases hP : P with
    | nil => rw [hP] at hPlen; simp at hPlen
    | cons p ps =>
      refine ⟨p, ps.map digChar, hPlt p (by rw [hP]; simp), ?_⟩
      simp [renderMag, hPdef.symm, hP]
  · cases hT : P.take (P.length - sc) with
    | nil =>
      have : 1 ≤ (P.take (P.length - sc)).length := by
        simp [List.length_take]; omega
      rw [hT] at this; simp at this
    | cons t ts =>
      refine ⟨t, ts.map digChar ++ '.' :: (P.drop (P.length - sc)).map digChar,
        hPlt t (List.mem_of_mem_take (by rw [hT]; simp)), ?_⟩
      simp [renderMag, hPdef.symm, hsc, hT]

theorem digChar_ne_dash {p : Nat} (h : p < 10) : digChar p ≠ '-' := by
  interval_cases p <;> decide

theorem parseNumber_render (x : JNum) {rest : List Char}
    (hb : numBoundary rest = true) :
    parseNumber (renderJNum x ++ rest) = some (x, rest) := by
  obtain ⟨p, t, hp, hmag⟩ := renderMag_head x.mantissa.natAbs x.scale
  by_cases hneg : x.mantissa < 0
  · simp only [renderJNum, hneg, if_true, List.cons_append, List.nil_append,
      parseNumber, reduceIte]
    rw [parseNumMag_render x.mantissa.natAbs x.scale hb]
    have hm : -(x.mantissa.natAbs : Int) = x.mantissa := by omega
    show some ((⟨-(x.mantissa.natAbs : Int), x.scale⟩ : JNum), rest) = some (x, rest)
    rw [hm]
  · simp only [renderJNum, hneg, if_false, List.nil_append]
    rw [hmag]
    simp only [List.cons_append, parseNumber, digChar_ne_dash hp, if_false]
    rw [← List.cons_append, ← hmag, parseNumMag_render x.mantissa.natAbs x.scale hb]
    have hm : (x.mantissa.natAbs : Int) = x.mantissa := by omega
    show some ((⟨(x.mantissa.natAbs : Int), x.scale⟩ : JNum), rest) = some (x, rest)
    rw [hm]

theorem hexVal_hexChar {d : Nat} (h : d < 16) : hexVal (hexChar d) = some d := by
  interval_cases d <;> decide

theorem parseStrBody_escStr (cs : List Char) (rest : List Char) :
    parseStrBody (escStr cs ++ '"' :: rest) = some (cs, rest) := by
  induction cs with
  | nil =>
    show parseStrBody ('"' :: rest) = some ([], rest)
    rw [parseStrBody.eq_def]
    simp
  | cons c cs ih =>
    show parseStrBody ((escChar c ++ escStr cs) ++ '"' :: rest) = some (c :: cs, rest)
    rw [List.append_assoc]
    by_cases h1 : c = '"'
    · subst h1
      simp only [escChar, reduceIte, List.cons_append, List.nil_append]
      rw [parseStrBody.eq_def]
      simp [unescChar, ih]
    · by_cases h2 : c = '\\'
      · subst h2
        simp only [escChar, reduceIte, List.cons_append, List.nil_append]
        rw [parseStrBody.eq_def]
        simp [unescChar, ih]
      · by_cases h3 : c = '\x08'
        · subst h3
          simp only [escChar, reduceIte, List.cons_append, List.nil_append]
          rw [parseStrBody.eq_def]
          simp [unescChar, ih]
        · by_cases h4 : c = '\x09'
          · subst h4
            simp only [escChar, reduceIte, List.cons_append, List.nil_append]
            rw [parseStrBody.eq_def]
            simp [unescChar, ih]
          · by_cases h5 : c = '\x0a'
            · subst h5
              simp only [escChar, reduceIte, List.cons_append, List.nil_append]
              rw [parseStrBody.eq_def]
              simp [unescChar, ih]
            · by_cases h6 : c = '\x0c'
              · subst h6
                simp only [escChar, reduceIte, List.cons_append, List.nil_append]
                rw [parseStrBody.eq_def]
                simp [unescChar, ih]
              · by_cases h7 : c = '\x0d'
                · subst h7
                  simp only [escChar, reduceIte, List.cons_append, List.nil_append]
                  rw [parseStrBody.eq_def]
                  simp [unescChar, ih]
                · by_cases h8 : c.toNat < 32
                  · have hhi : c.toNat / 16 < 16 := by omega
                    have hlo : c.toNat % 16 < 16 := by omega
                    have hv0 : hexVal '0' = some 0 := by decide
                    simp only [escChar, h1, h2, h3, h4, h5, h6, h7, h8, if_false,
                      if_true, reduceIte, List.cons_append, List.nil_append]
                    rw [parseStrBody.eq_def]
                    simp only [reduceIte, hv0, hexVal_hexChar hhi, hexVal_hexChar hlo, ih]
                    have harith : ((0 * 16 + 0) * 16 + c.toNat / 16) * 16 + c.toNat % 16
                        = c.toNat := by omega
                    rw [harith, Char.ofNat_toNat]
                    simp
                  · simp only [escChar, h1, h2, h3, h4, h5, h6, h7, h8, if_false,
                      List.cons_append, List.nil_append]
                    rw [parseStrBody.eq_def]
                    simp [h1, h2, ih]

theorem skipWs_cons_ws {c : Char} {cs : List Char} (h : isWsChar c) :
    skipWs (c :: cs) = skipWs cs := by
  simp [skipWs, h]

theorem skipWs_cons_not {c : Char} {cs : List Char} (h : ¬ isWsChar c) :
    skipWs (c :: cs) = c :: cs := by
  simp [skipWs, h]

theorem skipWs_replicate_sp (k : Nat) (cs : List Char) :
    skipWs (List.replicate k ' ' ++ cs) = skipWs cs := by
  induction k with
  | zero => simp
  | succ n ih =>
    rw [List.replicate_succ, List.cons_append,
      skipWs_cons_ws (by simp [isWsChar]), ih]

theorem skipWs_indent (d : Nat) (cs : List Char) :
    skipWs (indentChars d ++ cs) = skipWs cs :=
  skipWs_replicate_sp (2 * d) cs

theorem skipWs_skipWs (cs : List Char) : skipWs (skipWs cs) = skipWs cs := by
  induction cs with
  | nil => simp [skipWs]
  | cons c cs ih =>
    by_cases h : isWsChar c
    · rw [skipWs_cons_ws h, ih]
    · rw [skipWs_cons_not h, skipWs_cons_not h]

theorem parseVal_skipWs (fuel : Nat) (cs : List Char) :
    parseVal fuel (skipWs cs) = parseVal fuel cs := by
  cases fuel with
  | zero => rw [parseVal.eq_def, parseVal.eq_def]
  | succ f =>
    rw [parseVal.eq_def]
    conv_rhs => rw [parseVal.eq_def]
    simp only [skipWs_skipWs]

theorem parseItems_skipWs (fuel : Nat) (cs : List Char) :
    parseItems fuel (skipWs cs) = parseItems fuel cs := by
  cases fuel with
  | zero => rw [parseItems.eq_def, parseItems.eq_def]
  | succ f =>
    rw [parseItems.eq_def]
    conv_rhs => rw [parseItems.eq_def]
    simp only [parseVal_skipWs]

theorem parseFields_skipWs (fuel : Nat) (cs : List Char) :
    parseFields fuel (skipWs cs) = parseFields fuel cs := by
  cases fuel with
  | zero => rw [parseFields.eq_def, parseFields.eq_def]
  | succ f =>
    rw [parseFields.eq_def]
    conv_rhs => rw [parseFields.eq_def]
    simp only [skipWs_skipWs]

theorem renderMag_ne_nil (m sc : Nat) : renderMag m sc ≠ [] := by
  obtain ⟨p, t, hp, h⟩ := renderMag_head m sc
  simp [h]

theorem digChar_props {p : Nat} (h : p < 10) :
    ¬ isWsChar (digChar p) ∧ digChar p ≠ ']' ∧ digChar p ≠ '\x7d' ∧
      digChar p ≠ 'n' ∧ digChar p ≠ 't' ∧ digChar p ≠ 'f' ∧
      digChar p ≠ '"' ∧ digChar p ≠ '[' ∧ digChar p ≠ '\x7b' := by
  refine ⟨?_, ?_, ?_, ?_, ?_, ?_, ?_, ?_, ?_⟩ <;> interval_cases p <;> decide

theorem renderJNum_head (x : JNum) :
    ∃ c t, renderJNum x = c :: t ∧ ¬ isWsChar c ∧ c ≠ ']' ∧ c ≠ '\x7d' ∧
      c ≠ 'n' ∧ c ≠ 't' ∧ c ≠ 'f' ∧ c ≠ '"' ∧ c ≠ '[' ∧ c ≠ '\x7b' := by
  obtain ⟨p, t, hp, hmag⟩ := renderMag_head x.mantissa.natAbs x.scale
  by_cases hneg : x.mantissa < 0
  · refine ⟨'-', renderMag x.mantissa.natAbs x.scale, ?_, by simp [isWsChar],
      by decide, by decide, by decide, by decide, by decide, by decide,
      by decide, by decide⟩
    simp [renderJNum, hneg]
  · obtain ⟨h1, h2, h3, h4, h5, h6, h7, h8, h9⟩ := digChar_props hp
    exact ⟨digChar p, t, by simp [renderJNum, hneg, hmag], h1, h2, h3, h4, h5,
      h6, h7, h8, h9⟩

theorem renderVal_head (j : Json) (d : Nat) :
    ∃ c t, renderVal j d = c :: t ∧ ¬ isWsChar c ∧ c ≠ ']' ∧ c ≠ '\x7d' := by
  cases j with
  | null => exact ⟨'n', _, rfl, by simp [isWsChar], by decide, by decide⟩
  | bool b =>
    cases b with
    | true => exact ⟨'t', _, rfl, by simp [isWsChar], by decide, by decide⟩
    | false => exact ⟨'f', _, rfl, by simp [isWsChar], by decide, by decide⟩
  | num x =>
    obtain ⟨c, t, hct, h1, h2, h3, _⟩ := renderJNum_head x
    exact ⟨c, t, by simp [renderVal, hct], h1, h2, h3⟩
  | str s => exact ⟨'"', _, rfl, by simp [isWsChar], by decide, by decide⟩
  | arr xs =>
    cases xs with
    | nil => exact ⟨'[', _, rfl, by simp [isWsChar], by decide, by decide⟩
    | cons x tl => exact ⟨'[', _, rfl, by simp [isWsChar], by decide, by decide⟩
  | obj fs =>
    cases fs with
    | nil => exact ⟨'\x7b', _, rfl, by simp [isWsChar], by decide, by decide⟩
    | cons k v tl =>
      exact ⟨'\x7b', _, rfl, by simp [isWsChar], by decide, by decide⟩

theorem parseVal_cons_ws (fuel : Nat) {c : Char} (h : isWsChar c)
    (cs : List Char) : parseVal fuel (c :: cs) = parseVal fuel cs := by
  conv_lhs => rw [← parseVal_skipWs]
  rw [skipWs_cons_ws h, parseVal_skipWs]

theorem parseVal_append_indent (fuel e : Nat) (cs : List Char) :
    parseVal fuel (indentChars e ++ cs) = parseVal fuel cs := by
  conv_lhs => rw [← parseVal_skipWs]
  rw [skipWs_indent, parseVal_skipWs]

theorem parseItems_cons_ws (fuel : Nat) {c : Char} (h : isWsChar c)
    (cs : List Char) : parseItems fuel (c :: cs) = parseItems fuel cs := by
  conv_lhs => rw [← parseItems_skipWs]
  rw [skipWs_cons_ws h, parseItems_skipWs]

theorem parseFields_cons_ws (fuel : Nat) {c : Char} (h : isWsChar c)
    (cs : List Char) : parseFields fuel (c :: cs) = parseFields fuel cs := by
  conv_lhs => rw [← parseFields_skipWs]
  rw [skipWs_cons_ws h, parseFields_skipWs]

theorem skipWs_renderItems_cons (x : Json) (tl : JsonList) (e : Nat)
    (T : List Char) :
    ∃ c2 t2, skipWs (renderItems (.cons x tl) e ++ T) = c2 :: t2 ∧
      ¬ isWsChar c2 ∧ c2 ≠ ']' ∧ c2 ≠ '\x7d' := by
  obtain ⟨c, t, hct, hw, h1, h2⟩ := renderVal_head x e
  cases tl with
  | nil =>
    refine ⟨c, t ++ T, ?_, hw, h1, h2⟩
    show skipWs ((indentChars e ++ renderVal x e) ++ T) = c :: (t ++ T)
    rw [List.append_assoc, skipWs_indent, hct, List.cons_append,
      skipWs_cons_not hw]
  | cons y tl2 =>
    refine ⟨c, t ++ (',' :: '\n' :: renderItems (.cons y tl2) e ++ T), ?_,
      hw, h1, h2⟩
    show skipWs ((indentChars e ++ renderVal x e ++
      ',' :: '\n' :: renderItems (.cons y tl2) e) ++ T) = _
    rw [List.append_assoc, List.append_assoc, skipWs_indent, hct,
      List.cons_append, skipWs_cons_not hw]

theorem skipWs_renderFields_cons (k : List Char) (v : Json) (tl : JsonFields)
    (e : Nat) (T : List Char) :
    ∃ t2, skipWs (renderFields (.cons k v tl) e ++ T) = '"' :: t2 := by
  cases tl with
  | nil =>
    refine ⟨(escStr k ++ '"' :: ':' :: ' ' :: renderVal v e) ++ T, ?_⟩
    show skipWs ((indentChars e ++
      '"' :: (escStr k ++ '"' :: ':' :: ' ' :: renderVal v e)) ++ T) = _
    rw [List.append_assoc, skipWs_indent, List.cons_append,
      skipWs_cons_not (show ¬ isWsChar '"' from by decide)]
  | cons k2 v2 tl2 =>
    refine ⟨(escStr k ++ '"' :: ':' :: ' ' :: renderVal v e) ++
      (',' :: '\n' :: renderFields (.cons k2 v2 tl2) e ++ T), ?_⟩
    show skipWs ((indentChars e ++
      '"' :: (escStr k ++ '"' :: ':' :: ' ' :: renderVal v e) ++
      ',' :: '\n' :: renderFields (.cons k2 v2 tl2) e) ++ T) = _
    rw [List.append_assoc, List.append_assoc, skipWs_indent]
    rw [List.cons_append, skipWs_cons_not (show ¬ isWsChar '"' from by decide)]

theorem numBoundary_comma (cs : List Char) : numBoundary (',' :: cs) = true := by
  simp [numBoundary, digVal]

theorem numBoundary_newline (cs : List Char) : numBoundary ('\n' :: cs) = true := by
  simp [numBoundary, digVal]

theorem parse_render_all (fuel : Nat) :
    (∀ (j : Json) (d : Nat) (rest : List Char), fuelJ j ≤ fuel →
      numBoundary rest = true →
      parseVal fuel (renderVal j d ++ rest) = some (j, rest)) ∧
    (∀ (x : Json) (tl : JsonList) (e d : Nat) (rest : List Char),
      fuelL (JsonList.cons x tl) ≤ fuel →
      parseItems fuel (renderItems (JsonList.cons x tl) e ++
        ('\n' :: (indentChars d ++ ']' :: rest)))
        = some (JsonList.cons x tl, rest)) ∧
    (∀ (k : List Char) (v : Json) (tl : JsonFields) (e d : Nat)
      (rest : List Char), fuelF (JsonFields.cons k v tl) ≤ fuel →
      parseFields fuel (renderFields (JsonFields.cons k v tl) e ++
        ('\n' :: (indentChars d ++ '\x7d' :: rest)))
        = some (JsonFields.cons k v tl, rest)) := by
  induction fuel with
  | zero =>
    refine ⟨?_, ?_, ?_⟩
    · intro j d rest hf _
      exfalso
      cases j <;> (simp only [fuelJ] at hf; omega)
    · intro x tl e d rest hf
      exfalso
      simp only [fuelL] at hf
      omega
    · intro k v tl e d rest hf
      exfalso
      simp only [fuelF] at hf
      omega
  | succ f ih =>
    obtain ⟨ihP, ihQ, ihR⟩ := ih
    refine ⟨?_, ?_, ?_⟩
    · intro j d rest hf hb
      cases j with
      | null =>
        show parseVal (f + 1) ('n' :: 'u' :: 'l' :: 'l' :: rest) = _
        rw [parseVal.eq_def]
        simp [skipWs_cons_not, isWsChar, expectKw]
      | bool b =>
        cases b with
        | true =>
          show parseVal (f + 1) ('t' :: 'r' :: 'u' :: 'e' :: rest) = _
          rw [parseVal.eq_def]
          simp [skipWs_cons_not, isWsChar, expectKw]
        | false =>
          show parseVal (f + 1) ('f' :: 'a' :: 'l' :: 's' :: 'e' :: rest) = _
          rw [parseVal.eq_def]
          simp [skipWs_cons_not, isWsChar, expectKw]
      | num x =>
        obtain ⟨c, t, hct, hw, h1, h2, hn, ht', hf', hq, hlb, hob⟩ :=
          renderJNum_head x
        show parseVal (f + 1) (renderJNum x ++ rest) = _
        rw [hct, List.cons_append, parseVal.eq_def]
        simp only [skipWs_cons_not hw]
        simp only [hn, ht', hf', hq, hlb, hob, if_false, reduceIte]
        rw [← List.cons_append, ← hct, parseNumber_render x hb]
        rfl
      | str s =>
        show parseVal (f + 1) ('"' :: ((escStr s ++ ['"']) ++ rest)) = _
        have hsq : (escStr s ++ ['"']) ++ rest = escStr s ++ '"' :: rest := by
          simp
        rw [hsq, parseVal.eq_def]
        simp [skipWs_cons_not, isWsChar, parseStrBody_escStr]
      | arr xs =>
        cases xs with
        | nil =>
          show parseVal (f + 1) ('[' :: ']' :: rest) = _
          rw [parseVal.eq_def]
          simp [skipWs_cons_not, isWsChar]
        | cons x tl =>
          obtain ⟨c2, t2, hsk, hw2, hne2, hne3⟩ :=
            skipWs_renderItems_cons x tl (d + 1)
              ('\n' :: (indentChars d ++ ']' :: rest))
          have hfl : fuelL (JsonList.cons x tl) ≤ f := by
            simp only [fuelJ] at hf; omega
          have hpi : parseItems f (c2 :: t2)
              = some (JsonList.cons x tl, rest) := by
            rw [← hsk, parseItems_skipWs]
            exact ihQ x tl (d + 1) d rest hfl
          have hin : renderVal (.arr (.cons x tl)) d ++ rest
              = '[' :: '\n' :: (renderItems (JsonList.cons x tl) (d + 1) ++
                ('\n' :: (indentChars d ++ ']' :: rest))) := by
            show ('[' :: '\n' :: (renderItems (JsonList.cons x tl) (d + 1) ++
              '\n' :: (indentChars d ++ [']']))) ++ rest = _
            simp
          rw [hin, parseVal.eq_def]
          simp only [skipWs_cons_not (show ¬ isWsChar '[' from by decide)]
          simp only [reduceIte,
            skipWs_cons_ws (show isWsChar '\n' from by decide), hsk]
          simp [hne2, hpi]
      | obj fs =>
        cases fs with
        | nil =>
          show parseVal (f + 1) ('\x7b' :: '\x7d' :: rest) = _
          rw [parseVal.eq_def]
          simp [skipWs_cons_not, isWsChar]
        | cons k v tl =>
          obtain ⟨t2, hsk⟩ := skipWs_renderFields_cons k v tl (d + 1)
            ('\n' :: (indentChars d ++ '\x7d' :: rest))
          have hfl : fuelF (JsonFields.cons k v tl) ≤ f := by
            simp only [fuelJ] at hf; omega
          have hpf : parseFields f ('"' :: t2)
              = some (JsonFields.cons k v tl, rest) := by
            rw [← hsk, parseFields_skipWs]
            exact ihR k v tl (d + 1) d rest hfl
          have hin : renderVal (.obj (.cons k v tl)) d ++ rest
              = '\x7b' :: '\n' :: (renderFields (JsonFields.cons k v tl) (d + 1) ++
                ('\n' :: (indentChars d ++ '\x7d' :: rest))) := by
            show ('\x7b' :: '\n' :: (renderFields (JsonFields.cons k v tl) (d + 1) ++
              '\n' :: (indentChars d ++ ['\x7d']))) ++ rest = _
            simp
          rw [hin, parseVal.eq_def]
          simp only [skipWs_cons_not (show ¬ isWsChar '\x7b' from by decide)]
          simp only [reduceIte,
            skipWs_cons_ws (show isWsChar '\n' from by decide), hsk]
          simp [hpf]
    · intro x tl e d rest hf
      have hfx : fuelJ x ≤ f := by simp only [fuelL] at hf; omega
      cases tl with
      | nil =>
        have hpv : parseVal f (renderItems (JsonList.cons x .nil) e ++
            ('\n' :: (indentChars d ++ ']' :: rest)))
            = some (x, '\n' :: (indentChars d ++ ']' :: rest)) := by
          show parseVal f ((indentChars e ++ renderVal x e) ++ _) = _
          rw [List.append_assoc, parseVal_append_indent]
          exact ihP x e _ hfx (numBoundary_newline _)
        rw [parseItems.eq_def]
        simp only [hpv]
        rw [skipWs_cons_ws (show isWsChar '\n' from by decide), skipWs_indent,
          skipWs_cons_not (show ¬ isWsChar ']' from by decide)]
        simp
      | cons y tl2 =>
        have hfl2 : fuelL (JsonList.cons y tl2) ≤ f := by
          simp only [fuelL] at hf ⊢; omega
        have hpv : parseVal f (renderItems (JsonList.cons x (.cons y tl2)) e ++
            ('\n' :: (indentChars d ++ ']' :: rest)))
            = some (x, ',' :: '\n' :: (renderItems (JsonList.cons y tl2) e ++
              ('\n' :: (indentChars d ++ ']' :: rest)))) := by
          have heq : renderItems (JsonList.cons x (.cons y tl2)) e ++
              ('\n' :: (indentChars d ++ ']' :: rest))
              = indentChars e ++ (renderVal x e ++
                (',' :: '\n' :: (renderItems (JsonList.cons y tl2) e ++
                  ('\n' :: (indentChars d ++ ']' :: rest))))) := by
            show (indentChars e ++ renderVal x e ++
              ',' :: '\n' :: renderItems (JsonList.cons y tl2) e) ++ _ = _
            simp
          rw [heq, parseVal_append_indent]
          exact ihP x e _ hfx (numBoundary_comma _)
        have hpi2 : parseItems f ('\n' ::
            (renderItems (JsonList.cons y tl2) e ++
              ('\n' :: (indentChars d ++ ']' :: rest))))
            = some (JsonList.cons y tl2, rest) := by
          rw [parseItems_cons_ws _ (show isWsChar '\n' from by decide)]
          exact ihQ y tl2 e d rest hfl2
        rw [parseItems.eq_def]
        simp only [hpv]
        rw [skipWs_cons_not (show ¬ isWsChar ',' from by decide)]
        simp [hpi2]
    · intro k v tl e d rest hf
      have hfv : fuelJ v ≤ f := by simp only [fuelF] at hf; omega
      cases tl with
      | nil =>
        have hskI : skipWs (renderFields (JsonFields.cons k v .nil) e ++
            ('\n' :: (indentChars d ++ '\x7d' :: rest)))
            = '"' :: (escStr k ++ '"' :: ':' :: ' ' :: (renderVal v e ++
              ('\n' :: (indentChars d ++ '\x7d' :: rest)))) := by
          show skipWs ((indentChars e ++
            '"' :: (escStr k ++ '"' :: ':' :: ' ' :: renderVal v e)) ++ _) = _
          rw [List.append_assoc, skipWs_indent, List.cons_append,
            skipWs_cons_not (show ¬ isWsChar '"' from by decide)]
          simp
        have hpv : parseVal f (' ' :: (renderVal v e ++
            ('\n' :: (indentChars d ++ '\x7d' :: rest))))
            = some (v, '\n' :: (indentChars d ++ '\x7d' :: rest)) := by
          rw [parseVal_cons_ws _ (show isWsChar ' ' from by decide)]
          exact ihP v e _ hfv (numBoundary_newline _)
        rw [parseFields.eq_def]
        simp only [hskI]
        simp only [reduceIte, parseStrBody_escStr]
        rw [skipWs_cons_not (show ¬ isWsChar ':' from by decide)]
        simp only [reduceIte, hpv]
        rw [skipWs_cons_ws (show isWsChar '\n' from by decide), skipWs_indent,
          skipWs_cons_not (show ¬ isWsChar '\x7d' from by decide)]
        simp
      | cons k2 v2 tl2 =>
        have hfl2 : fuelF (JsonFields.cons k2 v2 tl2) ≤ f := by
          simp only [fuelF] at hf ⊢; omega
        have hskI : skipWs (renderFields (JsonFields.cons k v (.cons k2 v2 tl2)) e ++
            ('\n' :: (indentChars d ++ '\x7d' :: rest)))
            = '"' :: (escStr k ++ '"' :: ':' :: ' ' :: (renderVal v e ++
              (',' :: '\n' :: (renderFields (JsonFields.cons k2 v2 tl2) e ++
                ('\n' :: (indentChars d ++ '\x7d' :: rest)))))) := by
          show skipWs ((indentChars e ++
            '"' :: (escStr k ++ '"' :: ':' :: ' ' :: renderVal v e) ++
            ',' :: '\n' :: renderFields (JsonFields.cons k2 v2 tl2) e) ++ _) = _
          rw [List.append_assoc, List.append_assoc, skipWs_indent,
            List.cons_append,
            skipWs_cons_not (show ¬ isWsChar '"' from by decide)]
          simp
        have hpv : parseVal f (' ' :: (renderVal v e ++
            (',' :: '\n' :: (renderFields (JsonFields.cons k2 v2 tl2) e ++
              ('\n' :: (indentChars d ++ '\x7d' :: rest))))))
            = some (v, ',' :: '\n' ::
              (renderFields (JsonFields.cons k2 v2 tl2) e ++
                ('\n' :: (indentChars d ++ '\x7d' :: rest)))) := by
          rw [parseVal_cons_ws _ (show isWsChar ' ' from by decide)]
          exact ihP v e _ hfv (numBoundary_comma _)
        have hpf2 : parseFields f ('\n' ::
            (renderFields (JsonFields.cons k2 v2 tl2) e ++
              ('\n' :: (indentChars d ++ '\x7d' :: rest))))
            = some (JsonFields.cons k2 v2 tl2, rest) := by
          rw [parseFields_cons_ws _ (show isWsChar '\n' from by decide)]
          exact ihR k2 v2 tl2 e d rest hfl2
        rw [parseFields.eq_def]
        simp only [hskI]
        simp only [reduceIte, parseStrBody_escStr]
        rw [skipWs_cons_not (show ¬ isWsChar ':' from by decide)]
        simp only [reduceIte, hpv]
        rw [skipWs_cons_not (show ¬ isWsChar ',' from by decide)]
        simp [hpf2]

mutual
theorem fuelJ_le_len (j : Json) (d : Nat) :
    fuelJ j ≤ (renderVal j d).length := by
  cases j with
  | null => simp [fuelJ, renderVal]
  | bool b => cases b <;> simp [fuelJ, renderVal]
  | num x =>
    obtain ⟨c, t, hct, h⟩ := renderJNum_head x
    show fuelJ (.num x) ≤ (renderJNum x).length
    rw [hct]
    simp [fuelJ]
  | str s =>
    show fuelJ (.str s) ≤ ('"' :: (escStr s ++ ['"'])).length
    simp [fuelJ]
  | arr xs =>
    cases xs with
    | nil => simp [fuelJ, fuelL, renderVal]
    | cons x tl =>
      have h := fuelL_le_len x tl (d + 1) (by omega)
      show fuelJ (.arr (.cons x tl)) ≤ ('[' :: '\n' ::
        (renderItems (.cons x tl) (d + 1) ++
          '\n' :: (indentChars d ++ [']']))).length
      simp only [fuelJ, List.length_cons, List.length_append]
      omega
  | obj fs =>
    cases fs with
    | nil => simp [fuelJ, fuelF, renderVal]
    | cons k v tl =>
      have h := fuelF_le_len k v tl (d + 1) (by omega)
      show fuelJ (.obj (.cons k v tl)) ≤ ('\x7b' :: '\n' ::
        (renderFields (.cons k v tl) (d + 1) ++
          '\n' :: (indentChars d ++ ['\x7d']))).length
      simp only [fuelJ, List.length_cons, List.length_append]
      omega
termination_by sizeOf j

theorem fuelL_le_len (x : Json) (tl : JsonList) (e : Nat) (he : 1 ≤ e) :
    fuelL (.cons x tl) ≤ (renderItems (.cons x tl) e).length := by
  cases tl with
  | nil =>
    have h := fuelJ_le_len x e
    show fuelL (.cons x .nil) ≤ (indentChars e ++ renderVal x e).length
    simp only [fuelL, List.length_append, indentChars, List.length_replicate]
    omega
  | cons y tl2 =>
    have h1 := fuelJ_le_len x e
    have h2 := fuelL_le_len y tl2 e he
    simp only [fuelL] at h2
    show fuelL (.cons x (.cons y tl2)) ≤ (indentChars e ++ renderVal x e ++
      ',' :: '\n' :: renderItems (.cons y tl2) e).length
    simp only [fuelL, List.length_append, List.length_cons, indentChars,
      List.length_replicate]
    omega
termination_by sizeOf (JsonList.cons x tl)

theorem fuelF_le_len (k : List Char) (v : Json) (tl : JsonFields) (e : Nat)
    (he : 1 ≤ e) :
    fuelF (.cons k v tl) ≤ (renderFields (.cons k v tl) e).length := by
  cases tl with
  | nil =>
    have h := fuelJ_le_len v e
    show fuelF (.cons k v .nil) ≤ (indentChars e ++
      '"' :: (escStr k ++ '"' :: ':' :: ' ' :: renderVal v e)).length
    simp only [fuelF, List.length_append, List.length_cons, indentChars,
      List.length_replicate]
    omega
  | cons k2 v2 tl2 =>
    have h1 := fuelJ_le_len v e
    have h2 := fuelF_le_len k2 v2 tl2 e he
    simp only [fuelF] at h2
    show fuelF (.cons k v (.cons k2 v2 tl2)) ≤ (indentChars e ++
      '"' :: (escStr k ++ '"' :: ':' :: ' ' :: renderVal v e) ++
      ',' :: '\n' :: renderFields (.cons k2 v2 tl2) e).length
    simp only [fuelF, List.length_append, List.length_cons, indentChars,
      List.length_replicate]
    omega
termination_by sizeOf (JsonFields.cons k v tl)
end

theorem numBoundary_nil : numBoundary [] = true := rfl

theorem parseVal_renderVal_nil (j : Json) :
    parseVal ((renderVal j 0).length + 1) (renderVal j 0) = some (j, []) := by
  have hfuel : fuelJ j ≤ (renderVal j 0).length + 1 :=
    le_trans (fuelJ_le_len j 0) (by omega)
  have hmain := (parse_render_all ((renderVal j 0).length + 1)).1 j 0 []
    hfuel numBoundary_nil
  rw [List.append_nil] at hmain
  exact hmain

theorem jparse_jstringify2 (j : Json) : jparse (jstringify2 j) = some j := by
  have hlist : (jstringify2 j).toList = renderVal j 0 := rfl
  have hlen : (jstringify2 j).length = (renderVal j 0).length := rfl
  simp only [jparse, hlist, hlen, parseVal_renderVal_nil j]
  simp [skipWs]

theorem string_mk_toList (s : String) : String.mk s.toList = s := rfl

theorem toList_ofList (l : List Json) : (JsonList.ofList l).toList = l := by
  induction l with
  | nil => rfl
  | cons j js ih => simp [JsonList.ofList, JsonList.toList, ih]

theorem decodeList_map {α : Type} (f : Json → Option α) (g : α → Json)
    (l : List α) (h : ∀ a, f (g a) = some a) :
    decodeList f (l.map g) = some l := by
  induction l with
  | nil => rfl
  | cons a l ih => simp [decodeList, h, ih]

theorem sentiment_fromJson_toJson (s : Sentiment) :
    Sentiment.fromJson s.toJson = some s := by
  cases s <;> rfl

theorem asString_ofString (s : String) :
    Json.asString (Json.ofString s) = some s := by
  simp [Json.asString, Json.ofString, string_mk_toList]

theorem group_fromJson_toJson (g : SentimentGroup) :
    SentimentGroup.fromJson g.toJson = some g := by
  cases g with
  | mk l c p =>
    simp [SentimentGroup.fromJson, SentimentGroup.toJson, JsonFields.lookup,
      Json.asNum]
    cases l <;> rfl

theorem comment_fromJson_toJson (c : NotableComment) :
    NotableComment.fromJson c.toJson = some c := by
  cases c with
  | mk i n st o =>
    simp [NotableComment.fromJson, NotableComment.toJson, JsonFields.lookup,
      Json.asNum, Json.asString, string_mk_toList, sentiment_fromJson_toJson]

theorem response_fromJson_toJson (r : AnalyzeResponse) :
    AnalyzeResponse.fromJson r.toJson = some r := by
  cases r with
  | mk t s g c k n =>
    simp [AnalyzeResponse.fromJson, AnalyzeResponse.toJson, JsonFields.lookup,
      Json.asNum, Json.asString, string_mk_toList, sentiment_fromJson_toJson,
      toList_ofList,
      decodeList_map SentimentGroup.fromJson SentimentGroup.toJson _
        group_fromJson_toJson,
      decodeList_map Json.asString Json.ofString _ asString_ofString,
      decodeList_map NotableComment.fromJson NotableComment.toJson _
        comment_fromJson_toJson]

/-! ## Claims -/

/-- C1 (amended): the client performs no schema validation on a
success-status response.  Any body that is valid JSON text — including one
missing the required `overall_sentiment` field — is stored as the result
with no error, so the state presents Success, not Failed; an error is
raised only when the body text is not valid JSON at all, in which case the
state is Failed with the engine parse-error message. -/
theorem c1_no_schema_validation (s : HomeState) (r : HttpResponse)
    (hurl : jsTrim s.url ≠ "") (hok : r.ok = true) :
    (∀ j, r.body = some j →
      (handleSubmit s (.response r)).2.result = j ∧
      (handleSubmit s (.response r)).2.error = none) ∧
    (r.body = none →
      (handleSubmit s (.response r)).2.error = some syntaxErrorMessage ∧
      (handleSubmit s (.response r)).2.result = Json.null) := by
  constructor
  · intro j hb
    simp [handleSubmit, hurl, analyzeRedditUrl, hok, hb, settleSubmit,
      preDispatch]
  · intro hb
    simp [handleSubmit, hurl, analyzeRedditUrl, hok, hb, settleSubmit,
      preDispatch]

/-- C1 witness: the amended claim applied to the malformed-body scenario. -/
theorem c1_no_schema_validation_witness :
    jsTrim ({ initialState with url := exampleUrl } : HomeState).url ≠ "" ∧
    (HttpResponse.mk 200 (some malformedBody)).ok = true ∧
    (handleSubmit { initialState with url := exampleUrl }
      (.response ⟨200, some malformedBody⟩)).2.result = malformedBody ∧
    (handleSubmit { initialState with url := exampleUrl }
      (.response ⟨200, some malformedBody⟩)).2.error = none := by
  have h := (c1_no_schema_validation { initialState with url := exampleUrl }
    ⟨200, some malformedBody⟩ (by decide) (by decide)).1 malformedBody rfl
  exact ⟨by decide, by decide, h.1, h.2⟩

/-- C1 counterexample: a success status with a body missing
`overall_sentiment` does not produce a Failed state: the error slot stays
empty and the nonconforming body itself is stored and exposed as the
result. -/
theorem c1_counterexample :
    (handleSubmit { initialState with url := exampleUrl }
      (.response ⟨200, some malformedBody⟩)).2.error = none ∧
    (handleSubmit { initialState with url := exampleUrl }
      (.response ⟨200, some malformedBody⟩)).2.result = malformedBody ∧
    malformedBody.isTruthy = true ∧
    AnalyzeResponse.fromJson malformedBody = none := by
  decide

/-- C2 (amended): on blank or whitespace-only input, `handleSubmit`
issues no request and sets the validation message
"Please enter a Reddit URL", but changes nothing else — in particular a
previously stored result is not cleared and remains exposed. -/
theorem c2_blank_submit (s : HomeState) (o : FetchOutcome)
    (h : jsTrim s.url = "") :
    (handleSubmit s o).1 = [] ∧
    (handleSubmit s o).2
      = { s with error := some "Please enter a Reddit URL" } := by
  simp [handleSubmit, h]

/-- C2 witness: the amended claim applied to a whitespace-only input. -/
theorem c2_blank_submit_witness :
    jsTrim ({ initialState with url := "   " } : HomeState).url = "" ∧
    (handleSubmit { initialState with url := "   " } (.netError "x")).1
      = [] ∧
    (handleSubmit { initialState with url := "   " } (.netError "x")).2.error
      = some "Please enter a Reddit URL" := by
  have h := c2_blank_submit { initialState with url := "   " }
    (.netError "x") (by decide)
  exact ⟨by decide, h.1, by rw [h.2]⟩

/-- C2 counterexample: submitting whitespace-only input while a prior
Success result is displayed leaves that result stored and truthy (still
exposed) alongside the validation message, so the state is not a
result-free variant of Idle. -/
theorem c2_counterexample :
    (handleSubmit { initialState with url := " ", result := sampleResponse.toJson } (.netError "x")).1 = [] ∧
    (handleSubmit { initialState with url := " ", result := sampleResponse.toJson } (.netError "x")).2.error = some "Please enter a Reddit URL" ∧
    (handleSubmit { initialState with url := " ", result := sampleResponse.toJson } (.netError "x")).2.result = sampleResponse.toJson ∧
    (sampleResponse.toJson).isTruthy = true := by
  decide

/-- C4: every submission with a non-blank url clears the prior result,
error and raw-view flag, enters the Loading state, and invokes the
request client once with exactly that url, whatever the prior state. -/
theorem c4_dispatch (s : HomeState) (o : FetchOutcome)
    (h : jsTrim s.url ≠ "") :
    (handleSubmit s o).1 = [analyzeRequest s.url] ∧
    (handleSubmit s o).2
      = settleSubmit (preDispatch s) (analyzeRedditUrl s.url o).2 ∧
    (preDispatch s).loading = true ∧
    (preDispatch s).result = Json.null ∧
    (preDispatch s).error = none ∧
    (preDispatch s).showRawJson = false ∧
    (preDispatch s).url = s.url := by
  refine ⟨?_, ?_, rfl, rfl, rfl, rfl, rfl⟩
  · simp [handleSubmit, h, analyzeRedditUrl]
  · simp [handleSubmit, h]

/-- C4 witness: a submission from a Success state dispatches. -/
theorem c4_dispatch_witness :
    jsTrim ({ initialState with url := exampleUrl, result := sampleResponse.toJson } : HomeState).url ≠ "" ∧
    (handleSubmit { initialState with url := exampleUrl, result := sampleResponse.toJson } (.netError "x")).1 = [analyzeRequest exampleUrl] := by
  have h := c4_dispatch
    { initialState with url := exampleUrl, result := sampleResponse.toJson }
    (.netError "x") (by decide)
  exact ⟨by decide, h.1⟩

/-- C7: from a Success state, a resolving clipboard write sets
`copySuccess` and schedules the 2000 ms reset whose firing restores the
state; a rejecting write leaves the whole state unchanged — the flag stays
false and the stored result is untouched — and only logs the failure. -/
theorem c7_copy (s : HomeState) (hres : s.result.isTruthy = true)
    (hflag : s.copySuccess = false) :
    (handleCopyToClipboard s true).1 = { s with copySuccess := true } ∧
    (handleCopyToClipboard s true).2.timerDelayMs = some 2000 ∧
    copyTimerFire (handleCopyToClipboard s true).1 = s ∧
    (handleCopyToClipboard s false).1 = s ∧
    (handleCopyToClipboard s false).1.copySuccess = false ∧
    (handleCopyToClipboard s false).1.result = s.result ∧
    (handleCopyToClipboard s false).2.loggedFailure = true ∧
    (handleCopyToClipboard s false).2.timerDelayMs = none := by
  have hs : ({ s with copySuccess := false } : HomeState) = s := by
    cases s
    simp_all
  refine ⟨?_, ?_, ?_, ?_, ?_, ?_, ?_, ?_⟩ <;>
    simp [handleCopyToClipboard, copyTimerFire, hres, hflag, hs]

/-- C7 witness: the copy behaviour at the success-scenario state. -/
theorem c7_copy_witness :
    ({ initialState with result := sampleResponse.toJson } : HomeState).result.isTruthy = true ∧
    ({ initialState with result := sampleResponse.toJson } : HomeState).copySuccess = false ∧
    (handleCopyToClipboard { initialState with result := sampleResponse.toJson } true).2.timerDelayMs = some 2000 ∧
    (handleCopyToClipboard { initialState with result := sampleResponse.toJson } false).1 = { initialState with result := sampleResponse.toJson } := by
  have h := c7_copy { initialState with result := sampleResponse.toJson }
    (by decide) (by decide)
  exact ⟨by decide, by decide, h.2.1, h.2.2.2.1⟩

/-- C8: the raw-view toggle flips `showRawJson`, changes no other state
component, and applying it twice restores the original state; it is a pure
state update that issues no request. -/
theorem c8_toggle (s : HomeState) :
    (toggleRawView s).showRawJson = ! s.showRawJson ∧
    (toggleRawView s).url = s.url ∧
    (toggleRawView s).loading = s.loading ∧
    (toggleRawView s).result = s.result ∧
    (toggleRawView s).error = s.error ∧
    (toggleRawView s).copySuccess = s.copySuccess ∧
    toggleRawView (toggleRawView s) = s := by
  refine ⟨rfl, rfl, rfl, rfl, rfl, rfl, ?_⟩
  simp [toggleRawView]

/-- C9 (amended): the client checks no distribution invariant: every
schema-conforming response body is accepted and stored as-is on a success
status, whatever its proportions sum to.  The invariant is an obligation
on the external service, not enforced here. -/
theorem c9_no_invariant_check (s : HomeState) (r : AnalyzeResponse)
    (hurl : jsTrim s.url ≠ "") :
    (handleSubmit s (.response ⟨200, some r.toJson⟩)).2.result = r.toJson ∧
    (handleSubmit s (.response ⟨200, some r.toJson⟩)).2.error = none := by
  simp [handleSubmit, hurl, analyzeRedditUrl, settleSubmit, preDispatch,
    HttpResponse.ok]

/-- C9 witness: the amended claim applied to the half-sum response. -/
theorem c9_no_invariant_check_witness :
    jsTrim ({ initialState with url := exampleUrl } : HomeState).url ≠ "" ∧
    (handleSubmit { initialState with url := exampleUrl }
      (.response ⟨200, some badProportionsResponse.toJson⟩)).2.result
      = badProportionsResponse.toJson := by
  have h := c9_no_invariant_check { initialState with url := exampleUrl }
    badProportionsResponse (by decide)
  exact ⟨by decide, h.1⟩

/-- C9 counterexample: a schema-conforming response whose proportions sum
to one half is accepted as a success and stored unchanged, so the sum is
not within any floating-point tolerance of 1. -/
theorem c9_counterexample :
    AnalyzeResponse.fromJson badProportionsResponse.toJson
      = some badProportionsResponse ∧
    (handleSubmit { initialState with url := exampleUrl }
      (.response ⟨200, some badProportionsResponse.toJson⟩)).2.result
      = badProportionsResponse.toJson ∧
    (handleSubmit { initialState with url := exampleUrl }
      (.response ⟨200, some badProportionsResponse.toJson⟩)).2.error = none ∧
    sumProportions badProportionsResponse = 1 / 2 ∧
    ¬ (|sumProportions badProportionsResponse - 1| ≤ 1 / 100) := by
  refine ⟨by decide, by decide, by decide, ?_, ?_⟩
  · norm_num [sumProportions, badProportionsResponse, JNum.toRat]
  · norm_num [sumProportions, badProportionsResponse, JNum.toRat]
    rw [abs_of_pos (show (0 : ℚ) < 1 / 2 by norm_num)]
    norm_num

/-- C10 (amended): after any non-blank submission completes, `loading` is
false and never both a result and an error are set; a failed request sets
exactly the error, a success stores exactly the body — which is a set
result unless the body is the JSON value `null`, in which case neither
slot is set.  The `finally` clause clears `loading` for every settled
outcome, whatever value was thrown. -/
theorem c10_settled (s : HomeState) (o : FetchOutcome)
    (h : jsTrim s.url ≠ "") :
    (handleSubmit s o).2.loading = false ∧
    ((handleSubmit s o).2.result = Json.null ∨
      (handleSubmit s o).2.error = none) ∧
    (∀ t, (analyzeRedditUrl s.url o).2 = .error t →
      (handleSubmit s o).2.error.isSome = true ∧
      (handleSubmit s o).2.result = Json.null) ∧
    (∀ j, (analyzeRedditUrl s.url o).2 = .ok j →
      (handleSubmit s o).2.result = j ∧
      (handleSubmit s o).2.error = none) ∧
    (∀ (st : HomeState) (res : Except Thrown Json),
      (settleSubmit st res).loading = false) := by
  have hs : (handleSubmit s o).2
      = settleSubmit (preDispatch s) (analyzeRedditUrl s.url o).2 := by
    simp [handleSubmit, h]
  refine ⟨?_, ?_, ?_, ?_, ?_⟩
  · rw [hs]
    cases (analyzeRedditUrl s.url o).2 <;> simp [settleSubmit]
  · rw [hs]
    cases (analyzeRedditUrl s.url o).2 <;> simp [settleSubmit, preDispatch]
  · intro t ht
    rw [hs, ht]
    simp [settleSubmit, preDispatch]
  · intro j hj
    rw [hs, hj]
    simp [settleSubmit, preDispatch]
  · intro st res
    cases res <;> simp [settleSubmit]

/-- C10 witness: the settled-state claim at the network-failure outcome. -/
theorem c10_settled_witness :
    jsTrim ({ initialState with url := exampleUrl } : HomeState).url ≠ "" ∧
    (handleSubmit { initialState with url := exampleUrl }
      (.netError "net down")).2.loading = false := by
  have h := c10_settled { initialState with url := exampleUrl }
    (.netError "net down") (by decide)
  exact ⟨by decide, h.1⟩

/-- C10 counterexample: a success status whose body is the JSON text
`null` completes the submission with `loading` false but with neither a
result nor an error set, so "exactly one of result or error is set" fails. -/
theorem c10_counterexample :
    (handleSubmit { initialState with url := exampleUrl }
      (.response ⟨200, some Json.null⟩)).2.loading = false ∧
    (handleSubmit { initialState with url := exampleUrl }
      (.response ⟨200, some Json.null⟩)).2.result = Json.null ∧
    (handleSubmit { initialState with url := exampleUrl }
      (.response ⟨200, some Json.null⟩)).2.error = none := by
  decide

/-- C3: on a non-success response the single issued request yields a
Failed state carrying `errorMessageFor`: the body `detail` field when it
is a truthy string, and otherwise the generic message naming the numeric
status code; the client never retries (exactly one request). -/
theorem c3_request_error (s : HomeState) (r : HttpResponse)
    (hurl : jsTrim s.url ≠ "") (hfail : r.ok = false) :
    (handleSubmit s (.response r)).1 = [analyzeRequest s.url] ∧
    (handleSubmit s (.response r)).2.error
      = some (errorMessageFor r.status r.body) ∧
    (handleSubmit s (.response r)).2.result = Json.null ∧
    (handleSubmit s (.response r)).2.loading = false ∧
    (∀ fs m, r.body = some (.obj fs) →
      fs.lookup "detail".toList = some (.str m) → m ≠ [] →
      errorMessageFor r.status r.body = String.mk m) ∧
    (∀ fs, r.body = some (.obj fs) → fs.lookup "detail".toList = none →
      errorMessageFor r.status r.body = statusMessage r.status) ∧
    (r.body = none →
      errorMessageFor r.status r.body = statusMessage r.status) ∧
    statusMessage r.status
      = "API request failed with status " ++ toString r.status := by
  refine ⟨?_, ?_, ?_, ?_, ?_, ?_, ?_, rfl⟩
  · simp [handleSubmit, hurl, analyzeRedditUrl]
  · simp [handleSubmit, hurl, analyzeRedditUrl, hfail, settleSubmit,
      preDispatch]
  · simp [handleSubmit, hurl, analyzeRedditUrl, hfail, settleSubmit,
      preDispatch]
  · simp [handleSubmit, hurl, analyzeRedditUrl, hfail, settleSubmit,
      preDispatch]
  · intro fs m hb hd hm
    simp only [errorMessageFor, hb]
    rw [hd]
    simp [Json.isTruthy, hm, jsToString]
  · intro fs hb hd
    simp only [errorMessageFor, hb]
    rw [hd]
  · intro hb
    simp [errorMessageFor, hb]

/-- C3 witness: the 422 scenario with body detail "Invalid Reddit URL"
settles in Failed("Invalid Reddit URL"). -/
theorem c3_request_error_witness :
    jsTrim ({ initialState with url := exampleUrl } : HomeState).url ≠ "" ∧
    (HttpResponse.mk 422 (some detailBody)).ok = false ∧
    (handleSubmit { initialState with url := exampleUrl }
      (.response ⟨422, some detailBody⟩)).1 = [analyzeRequest exampleUrl] ∧
    (handleSubmit { initialState with url := exampleUrl }
      (.response ⟨422, some detailBody⟩)).2.error
      = some "Invalid Reddit URL" := by
  have h := c3_request_error { initialState with url := exampleUrl }
    ⟨422, some detailBody⟩ (by decide) (by decide)
  refine ⟨by decide, by decide, h.1, ?_⟩
  rw [h.2.1]
  decide

/-- C6: from a Success state holding the JSON of an `AnalyzeResponse`,
the copy action writes `JSON.stringify(result, null, 2)`; parsing that
text back returns exactly the same JSON value, and decoding it recovers
the response field-for-field. -/
theorem c6_clipboard_roundtrip (s : HomeState) (r : AnalyzeResponse)
    (h : s.result = AnalyzeResponse.toJson r) :
    (handleCopyToClipboard s true).2.written
      = some (jstringify2 r.toJson) ∧
    jparse (jstringify2 r.toJson) = some r.toJson ∧
    AnalyzeResponse.fromJson r.toJson = some r := by
  refine ⟨?_, jparse_jstringify2 _, response_fromJson_toJson r⟩
  have htr : (AnalyzeResponse.toJson r).isTruthy = true := by
    simp [AnalyzeResponse.toJson, Json.isTruthy]
  simp [handleCopyToClipboard, h, htr]

/-- C6 witness: the round trip at the success-scenario response. -/
theorem c6_clipboard_roundtrip_witness :
    ({ initialState with result := sampleResponse.toJson } : HomeState).result
      = AnalyzeResponse.toJson sampleResponse ∧
    jparse (jstringify2 sampleResponse.toJson)
      = some sampleResponse.toJson ∧
    AnalyzeResponse.fromJson sampleResponse.toJson = some sampleResponse := by
  have h := c6_clipboard_roundtrip
    { initialState with result := sampleResponse.toJson } sampleResponse rfl
  exact ⟨rfl, h.2.1, h.2.2⟩

theorem escStr_url : escStr "url".toList = ['u', 'r', 'l'] := by decide

theorem renderValC_urlBody (u : String) :
    renderValC (Json.obj (.cons "url".toList (Json.ofString u) .nil))
      = '\x7b' :: '"' :: 'u' :: 'r' :: 'l' :: '"' :: ':' :: '"' ::
        (escStr u.toList ++ ['"', '\x7d']) := by
  show '\x7b' :: ('"' :: (escStr "url".toList ++ '"' :: ':' ::
      renderValC (Json.ofString u)) ++ renderFieldsC .nil ++ ['\x7d']) = _
  rw [escStr_url]
  show '\x7b' :: ('"' :: ('u' :: 'r' :: 'l' :: '"' :: ':' ::
      ('"' :: (escStr u.toList ++ ['"']))) ++ [] ++ ['\x7d']) = _
  simp

theorem jparse_urlBody (u : String) :
    jparse (jstringifyC (Json.obj (.cons "url".toList (Json.ofString u) .nil)))
      = some (Json.obj (.cons "url".toList (Json.ofString u) .nil)) := by
  have hlen : (renderValC (Json.obj (.cons "url".toList (Json.ofString u) .nil))).length
      = (escStr u.toList).length + 10 := by
    rw [renderValC_urlBody]
    simp
  have hstr : parseVal ((escStr u.toList).length + 9)
      ('"' :: (escStr u.toList ++ ['"', '\x7d']))
      = some (.str u.toList, ['\x7d']) := by
    rw [show (escStr u.toList).length + 9 = ((escStr u.toList).length + 8) + 1
      from rfl]
    rw [parseVal.eq_def]
    simp [skipWs_cons_not, isWsChar, parseStrBody_escStr]
  have hkey : parseStrBody ('u' :: 'r' :: 'l' :: '"' :: ':' :: '"' ::
      (escStr u.toList ++ ['"', '\x7d']))
      = some ("url".toList, ':' :: '"' :: (escStr u.toList ++ ['"', '\x7d'])) := by
    have hshape : ('u' :: 'r' :: 'l' :: '"' :: ':' :: '"' ::
        (escStr u.toList ++ ['"', '\x7d']))
        = escStr "url".toList ++ '"' :: (':' :: '"' ::
          (escStr u.toList ++ ['"', '\x7d'])) := by
      rw [escStr_url]
      rfl
    rw [hshape, parseStrBody_escStr]
  have hfields : parseFields ((escStr u.toList).length + 10)
      ('"' :: 'u' :: 'r' :: 'l' :: '"' :: ':' :: '"' ::
        (escStr u.toList ++ ['"', '\x7d']))
      = some (.cons "url".toList (.str u.toList) .nil, []) := by
    rw [show (escStr u.toList).length + 10 = ((escStr u.toList).length + 9) + 1
      from rfl]
    rw [parseFields.eq_def]
    simp only [skipWs_cons_not (show ¬ isWsChar '"' from by decide), reduceIte,
      hkey]
    rw [skipWs_cons_not (show ¬ isWsChar ':' from by decide)]
    simp only [reduceIte, hstr]
    rw [skipWs_cons_not (show ¬ isWsChar '\x7d' from by decide)]
    simp
  have hval : parseVal ((escStr u.toList).length + 11)
      (renderValC (Json.obj (.cons "url".toList (Json.ofString u) .nil)))
      = some (Json.obj (.cons "url".toList (Json.ofString u) .nil), []) := by
    rw [renderValC_urlBody]
    rw [show (escStr u.toList).length + 11 = ((escStr u.toList).length + 10) + 1
      from rfl]
    rw [parseVal.eq_def]
    simp only [skipWs_cons_not (show ¬ isWsChar '\x7b' from by decide)]
    simp only [reduceIte,
      skipWs_cons_not (show ¬ isWsChar '"' from by decide)]
    have hfields2 := hfields
    simp only [String.toList] at hfields2
    simp [hfields2, Json.ofString]
  show jparse (String.mk (renderValC _)) = _
  simp only [jparse]
  rw [show (String.mk (renderValC (Json.obj (.cons "url".toList
      (Json.ofString u) .nil)))).toList
    = renderValC (Json.obj (.cons "url".toList (Json.ofString u) .nil))
    from rfl]
  rw [show (String.mk (renderValC (Json.obj (.cons "url".toList
      (Json.ofString u) .nil)))).length
    = (renderValC (Json.obj (.cons "url".toList (Json.ofString u) .nil))).length
    from rfl]
  rw [hlen]
  rw [show (escStr u.toList).length + 10 + 1 = (escStr u.toList).length + 11
    from rfl]
  rw [hval]
  simp [skipWs]

/-- C5: one submission with a non-blank url issues exactly one outbound
POST whose body is the compact JSON text of the object with the single
field `url` holding the submitted string; parsing the body text back
yields exactly that object.  There is no retry, cache, or coalescing: the
request list of one call has exactly one element. -/
theorem c5_single_request (s : HomeState) (o : FetchOutcome)
    (h : jsTrim s.url ≠ "") :
    (handleSubmit s o).1 = [analyzeRequest s.url] ∧
    (analyzeRequest s.url).method = "POST" ∧
    (analyzeRequest s.url).contentType = "application/json" ∧
    (analyzeRequest s.url).endpoint = API_BASE_URL ++ "/api/analyze" ∧
    (analyzeRequest s.url).body
      = jstringifyC (.obj (.cons "url".toList (Json.ofString s.url) .nil)) ∧
    jparse (analyzeRequest s.url).body
      = some (.obj (.cons "url".toList (Json.ofString s.url) .nil)) := by
  refine ⟨?_, rfl, rfl, rfl, rfl, jparse_urlBody s.url⟩
  simp [handleSubmit, h, analyzeRedditUrl]

/-- C5 witness: the single request for the example url. -/
theorem c5_single_request_witness :
    jsTrim ({ initialState with url := exampleUrl } : HomeState).url ≠ "" ∧
    (handleSubmit { initialState with url := exampleUrl }
      (.netError "x")).1 = [analyzeRequest exampleUrl] ∧
    jparse (analyzeRequest exampleUrl).body
      = some (.obj (.cons "url".toList (Json.ofString exampleUrl) .nil)) := by
  have h := c5_single_request { initialState with url := exampleUrl }
    (.netError "x") (by decide)
  exact ⟨by decide, h.1, h.2.2.2.2.2⟩

end RedditSentiment
